import Mathlib

/-!
Shallow embedding of the binsign bundle protocol (matteof04/binsign).

Bytes are modelled as `Nat` values (a real byte is `< 256`) and byte
sequences as `List Nat`.  The bundle codec (`src/signed_file.rs`) is
embedded concretely: `bincode::serialize`/`bincode::deserialize` use the
bincode 1.x legacy options (fixint encoding, little endian, trailing bytes
allowed), the ed25519 `Signature` serialises as a 64-element byte tuple
(its raw bytes, no length prefix) and the `serde_bytes` payload field as a
`u64` length prefix followed by the raw bytes.

The external leaf services (blake3 hashing, ed25519 prehashed
signing/verification, zstd compression, DER key parsing) are opaque
collaborators of the program; the pipelines of `src/lib.rs` are
parameterised over them and the theorems assume exactly the input/output
contracts the design documents for those services.
-/

namespace Binsign

/-- Little-endian base-256 digits of `n`, `k` bytes wide (the fixint
encoding of bincode 1.x for fixed-width unsigned integers). -/
def leBytes : Nat → Nat → List Nat
  | 0, _ => []
  | k + 1, n => n % 256 :: leBytes k (n / 256)

/-- The 8-byte little-endian encoding of a `u64`, as written by bincode's
fixint encoding. -/
def u64le (n : Nat) : List Nat := leBytes 8 n

/-- Value of a little-endian base-256 digit list. -/
def fromLEBytes : List Nat → Nat
  | [] => 0
  | b :: bs => b + 256 * fromLEBytes bs

/-- Read exactly `n` bytes from the front of `data`; `none` when the input
is too short (bincode fails with an end-of-input error there). -/
def readBytes (n : Nat) (data : List Nat) : Option (List Nat × List Nat) :=
  if n ≤ data.length then some (data.take n, data.drop n) else none

/-- Read a fixint `u64` (8 bytes, little endian). -/
def readU64 (data : List Nat) : Option (Nat × List Nat) :=
  match readBytes 8 data with
  | none => none
  | some (bs, rest) => some (fromLEBytes bs, rest)

/-- Error type of the library (`BinsignError` in `lib.rs`); the Rust
variants carry foreign error details that are dropped here. -/
inductive BinsignError where
  | FileIO
  | PrivateKeySerialization
  | PublicKeySerialization
  | PrivateKeyDeserialization
  | PublicKeyDeserialization
  | Signing
  | Verification
  | FileEncoding
  | FileDecoding
  | ZstdCompression
  | ZstdDecompression
  deriving DecidableEq

/-- Representation of a signed file (`signed_file.rs`): `signature` holds
the 64 bytes of the ed25519 signature (the Rust `Signature` type fixes the
length to 64), `file_size` the original size as a `u64`, `file` the
zstd-compressed payload. -/
structure SignedFile where
  signature : List Nat
  file_size : Nat
  file : List Nat
  deriving DecidableEq

/-- Constructor `SignedFile::new(file, signature, file_size)`. -/
def SignedFile.new (file : List Nat) (signature : List Nat) (file_size : Nat) : SignedFile :=
  { signature := signature, file_size := file_size, file := file }

/-- Encoder `SignedFile::encode`, i.e. `bincode::serialize` with the legacy
options: the signature's raw bytes (a 64-element tuple, no prefix), the
`u64` size as 8 fixed bytes, then the payload with a `u64` length prefix.
Serialising in-memory data with no size limit cannot fail, so the encoder
is total. -/
def SignedFile.encode (sf : SignedFile) : List Nat :=
  sf.signature ++ u64le sf.file_size ++ u64le sf.file.length ++ sf.file

/-- Decoder `SignedFile::decode`, i.e. `bincode::deserialize` with the same
legacy options: read 64 signature bytes, a `u64` size, a `u64` payload
length, then exactly that many payload bytes; hitting the end of input is a
decoding error.  The legacy options allow trailing bytes, so leftover input
after the payload is ignored. -/
def SignedFile.decode (data : List Nat) : Except BinsignError SignedFile :=
  match readBytes 64 data with
  | none => .error .FileDecoding
  | some (sig, r1) =>
    match readU64 r1 with
    | none => .error .FileDecoding
    | some (file_size, r2) =>
      match readU64 r2 with
      | none => .error .FileDecoding
      | some (len, r3) =>
        match readBytes len r3 with
        | none => .error .FileDecoding
        | some (file, _) =>
          .ok { signature := sig, file_size := file_size, file := file }

theorem leBytes_length (k n : Nat) : (leBytes k n).length = k := by
  induction k generalizing n with
  | zero => rfl
  | succ k ih => simp [leBytes, ih]

theorem leBytes_lt (k n : Nat) : ∀ b ∈ leBytes k n, b < 256 := by
  induction k generalizing n with
  | zero => intro b hb; simp [leBytes] at hb
  | succ k ih =>
    intro b hb
    simp only [leBytes, List.mem_cons] at hb
    rcases hb with hb | hb
    · omega
    · exact ih _ b hb

theorem fromLEBytes_leBytes (k n : Nat) (h : n < 256 ^ k) :
    fromLEBytes (leBytes k n) = n := by
  induction k generalizing n with
  | zero => simp [leBytes, fromLEBytes]; omega
  | succ k ih =>
    have hdiv : n / 256 < 256 ^ k := by
      rw [Nat.div_lt_iff_lt_mul (by omega : 0 < 256)]
      calc n < 256 ^ (k + 1) := h
        _ = 256 ^ k * 256 := by ring
    simp [leBytes, fromLEBytes, ih _ hdiv]
    omega

theorem fromLEBytes_inj (l1 l2 : List Nat) (h1 : ∀ b ∈ l1, b < 256)
    (h2 : ∀ b ∈ l2, b < 256) (hlen : l1.length = l2.length)
    (hval : fromLEBytes l1 = fromLEBytes l2) : l1 = l2 := by
  induction l1 generalizing l2 with
  | nil =>
    cases l2 with
    | nil => rfl
    | cons b bs => simp at hlen
  | cons a as ih =>
    cases l2 with
    | nil => simp at hlen
    | cons b bs =>
      simp only [fromLEBytes] at hval
      have ha : a < 256 := h1 a (by simp)
      have hb : b < 256 := h2 b (by simp)
      have hab : a = b ∧ fromLEBytes as = fromLEBytes bs := by
        constructor <;> omega
      have : as = bs := by
        refine ih bs (fun x hx => h1 x (by simp [hx]))
          (fun x hx => h2 x (by simp [hx])) (by simpa using hlen) hab.2
      rw [hab.1, this]

theorem take_append_length (l1 l2 : List Nat) : (l1 ++ l2).take l1.length = l1 := by
  induction l1 with
  | nil => rfl
  | cons a t ih => simp [ih]

theorem drop_append_length (l1 l2 : List Nat) : (l1 ++ l2).drop l1.length = l2 := by
  induction l1 with
  | nil => rfl
  | cons a t ih => simp [ih]

theorem readBytes_exact (l1 l2 : List Nat) {n : Nat} (h : l1.length = n) :
    readBytes n (l1 ++ l2) = some (l1, l2) := by
  subst h
  simp [readBytes, take_append_length, drop_append_length]

theorem readU64_exact (l1 l2 : List Nat) (h : l1.length = 8) :
    readU64 (l1 ++ l2) = some (fromLEBytes l1, l2) := by
  simp [readU64, readBytes_exact l1 l2 h]

/-- Unfolding of the decoder on a structurally well-formed byte stream:
64 signature bytes, an 8-byte size field, an 8-byte length field holding
the payload length, the payload, and arbitrary trailing bytes (which the
legacy bincode options ignore). -/
theorem decode_structured (sig sz ln payload extra : List Nat)
    (h64 : sig.length = 64) (hsz : sz.length = 8) (hln : ln.length = 8)
    (hval : fromLEBytes ln = payload.length) :
    SignedFile.decode (sig ++ (sz ++ (ln ++ (payload ++ extra)))) =
      .ok { signature := sig, file_size := fromLEBytes sz, file := payload } := by
  have h4 : readBytes (fromLEBytes ln) (payload ++ extra) = some (payload, extra) := by
    rw [hval]; exact readBytes_exact _ _ rfl
  simp [SignedFile.decode, readBytes_exact sig _ h64, readU64_exact _ _ hsz,
    readU64_exact _ _ hln, h4]

theorem u64le_length (n : Nat) : (u64le n).length = 8 := leBytes_length 8 n

theorem fromLEBytes_u64le (n : Nat) (h : n < 2 ^ 64) : fromLEBytes (u64le n) = n := by
  have : (256 : Nat) ^ 8 = 2 ^ 64 := by norm_num
  exact fromLEBytes_leBytes 8 n (by omega)

/-- Round trip of the codec, with arbitrary trailing bytes appended to the
encoded stream. -/
theorem decode_encode_append (sf : SignedFile) (extra : List Nat)
    (h64 : sf.signature.length = 64) (hsz : sf.file_size < 2 ^ 64)
    (hlen : sf.file.length < 2 ^ 64) :
    SignedFile.decode (sf.encode ++ extra) = .ok sf := by
  have : sf.encode ++ extra =
      sf.signature ++ (u64le sf.file_size ++ (u64le sf.file.length ++ (sf.file ++ extra))) := by
    simp [SignedFile.encode]
  rw [this, decode_structured sf.signature (u64le sf.file_size) (u64le sf.file.length)
    sf.file extra h64 (u64le_length _) (u64le_length _) (fromLEBytes_u64le _ hlen)]
  rw [fromLEBytes_u64le _ hsz]

theorem decode_structured' (sig sz ln payload : List Nat)
    (h64 : sig.length = 64) (hsz : sz.length = 8) (hln : ln.length = 8)
    (hval : fromLEBytes ln = payload.length) :
    SignedFile.decode (sig ++ (sz ++ (ln ++ payload))) =
      .ok { signature := sig, file_size := fromLEBytes sz, file := payload } := by
  have h := decode_structured sig sz ln payload [] h64 hsz hln hval
  simpa using h

/-- Changing a list at an in-range position to a different value yields a
different list. -/
theorem set_ne_of_ne (l : List Nat) (j v : Nat) (hj : j < l.length)
    (hv : v ≠ l.getD j 0) : l.set j v ≠ l := by
  intro h
  apply hv
  have h1 : (l.set j v).getD j 0 = v :=
    (List.getD_eq_getElem _ _ (by simpa using hj)).trans
      (List.getElem_set_self (by simpa using hj))
  rw [← h1, h]

/-- Resolution of the output path: the pipelines use the explicitly given
path, or append a fixed suffix to the input path
(`format!("{file_path}.sig")` respectively `format!("{file_path}.ver")`). -/
def resolve_output (file_path : String) (output_path : Option String) (suffix : String) : String :=
  match output_path with
  | some path => path
  | none => file_path ++ suffix

section Pipelines

variable {SK VK : Type}
variable (hash : List Nat → List Nat)
variable (sign_prehashed : SK → List Nat → Option (List Nat))
variable (verify_prehashed : VK → List Nat → List Nat → Bool)
variable (compress : List Nat → Int → Option (List Nat))
variable (decompress : List Nat → Nat → Option (List Nat))
variable (from_pkcs8_der : List Nat → Option SK)
variable (verifying_key : SK → VK)
variable (from_public_key_der : List Nat → Option VK)

/-- Key-store collaborator `read_keypair_from_file` (`keys.rs`): read the
DER bytes, parse the signing key, derive the verifying key. -/
def read_keypair_from_file (fsRead : String → Option (List Nat)) (path : String) :
    Except BinsignError (SK × VK) :=
  match fsRead path with
  | none => .error BinsignError.FileIO
  | some private_der =>
    match from_pkcs8_der private_der with
    | none => .error .PrivateKeyDeserialization
    | some signing_key => .ok (signing_key, verifying_key signing_key)

/-- Key-store collaborator `read_verifying_key_from_file` (`keys.rs`). -/
def read_verifying_key_from_file (fsRead : String → Option (List Nat)) (path : String) :
    Except BinsignError VK :=
  match fsRead path with
  | none => .error BinsignError.FileIO
  | some public_der =>
    match from_public_key_der public_der with
    | none => .error .PublicKeyDeserialization
    | some vk => .ok vk

/-- Sign pipeline `sign_file` (`lib.rs`).  `fsRead` gives the file-system
contents (`none` is an I/O failure); the returned list records the
`fs::write` calls performed, in order.  The steps mirror the Rust function:
resolve the output path, read and parse the signing key, read the file,
hash it, sign the hash (prehashed mode), compress the content, build the
`SignedFile`, encode it, and only then write the single output file. -/
def sign_file (fsRead : String → Option (List Nat)) (file_path signing_key_path : String)
    (output_path : Option String) (compression_level : Int) :
    Except BinsignError Unit × List (String × List Nat) :=
  let output_path := resolve_output file_path output_path ".sig"
  match read_keypair_from_file from_pkcs8_der verifying_key fsRead signing_key_path with
  | .error e => (.error e, [])
  | .ok (signing_key, _) =>
    match fsRead file_path with
    | none => (.error BinsignError.FileIO, [])
    | some file_content =>
      let original_file_size := file_content.length
      let file_hash := hash file_content
      match sign_prehashed signing_key file_hash with
      | none => (.error .Signing, [])
      | some signature =>
        match compress file_content compression_level with
        | none => (.error .ZstdCompression, [])
        | some compressed =>
          let signed_file := SignedFile.new compressed signature original_file_size
          let encoded_file := signed_file.encode
          (.ok (), [(output_path, encoded_file)])

/-- Verify pipeline `verify_file` (`lib.rs`): resolve the output path, read
and parse the verifying key, read the bundle, decode it, decompress the
payload with `file_size` as the expected size, hash the decompressed bytes,
verify the signature over that hash, and only then write the single output
file. -/
def verify_file (fsRead : String → Option (List Nat)) (file_path verifying_key_path : String)
    (output_path : Option String) :
    Except BinsignError Unit × List (String × List Nat) :=
  let output_path := resolve_output file_path output_path ".ver"
  match read_verifying_key_from_file from_public_key_der fsRead verifying_key_path with
  | .error e => (.error e, [])
  | .ok vk =>
    match fsRead file_path with
    | none => (.error BinsignError.FileIO, [])
    | some file_content =>
      match SignedFile.decode file_content with
      | .error e => (.error e, [])
      | .ok signed_file =>
        let signature := signed_file.signature
        let file_content := signed_file.file
        let original_file_size := signed_file.file_size
        match decompress file_content original_file_size with
        | none => (.error .ZstdDecompression, [])
        | some file_content =>
          let file_hasher := hash file_content
          match verify_prehashed vk file_hasher signature with
          | false => (.error .Verification, [])
          | true => (.ok (), [(output_path, file_content)])

theorem read_keypair_ok (fsRead : String → Option (List Nat)) (path : String)
    (kd : List Nat) (sk : SK) (hk : fsRead path = some kd)
    (hp : from_pkcs8_der kd = some sk) :
    read_keypair_from_file from_pkcs8_der verifying_key fsRead path =
      .ok (sk, verifying_key sk) := by
  simp [read_keypair_from_file, hk, hp]

theorem read_verifying_key_ok (fsRead : String → Option (List Nat)) (path : String)
    (pkd : List Nat) (vk : VK) (hk : fsRead path = some pkd)
    (hp : from_public_key_der pkd = some vk) :
    read_verifying_key_from_file from_public_key_der fsRead path = .ok vk := by
  simp [read_verifying_key_from_file, hk, hp]

end Pipelines

/-- Toy hash service used by the witnesses: the identity (the model puts no
constraint on digest width, and the identity is trivially deterministic and
injective). -/
def idHash (l : List Nat) : List Nat := l

/-- Toy prehashed signing service: append the key to the digest. -/
def toySign (sk : Nat) (d : List Nat) : Option (List Nat) := some (d ++ [sk])

/-- Toy prehashed verification service matching `toySign`. -/
def toyVerify (vk : Nat) (d s : List Nat) : Bool := decide (s = d ++ [vk])

/-- Toy compression service: the identity at every level. -/
def toyCompress (l : List Nat) (_level : Int) : Option (List Nat) := some l

/-- Toy compression service that rejects levels above 22. -/
def toyCompressBounded (l : List Nat) (level : Int) : Option (List Nat) :=
  if level ≤ 22 then some l else none

/-- Toy decompression service matching `toyCompress`: succeeds exactly when
the expected size is right, and returns the compressed bytes unchanged. -/
def toyDecompress (c : List Nat) (n : Nat) : Option (List Nat) :=
  if n = c.length then some c else none

/-- Toy private-key parser: the first byte is the key. -/
def toyParseSK (der : List Nat) : Option Nat := der.head?

/-- Toy derivation of the public key: the identity. -/
def toyDeriveVK (sk : Nat) : Nat := sk

/-- Toy public-key parser: the first byte is the key. -/
def toyParseVK (der : List Nat) : Option Nat := der.head?

/-- Demo file content for witnesses: 63 bytes, so that the toy signature
over it is 64 bytes long. -/
def demoContent : List Nat := List.replicate 63 7

/-- Demo signature: what `toySign 0` produces on the demo content. -/
def demoSig : List Nat := demoContent ++ [0]

/-- Demo file system: the demo content at path `file`, the zero key byte at
every other path. -/
def demoFS : String → Option (List Nat) :=
  fun p => if p = "file" then some demoContent else some [0]

/-- Demo file system for the verify pipeline: a valid demo bundle at path
`bundle`, the zero key byte at every other path. -/
def demoVerifyFS : String → Option (List Nat) :=
  fun p =>
    if p = "bundle" then
      some (SignedFile.new demoContent demoSig demoContent.length).encode
    else some [0]

theorem toyDecompress_spec (c : List Nat) (n : Nat) (f : List Nat)
    (h : toyDecompress c n = some f) : f = c ∧ n = c.length := by
  by_cases hc : n = c.length
  · simp [toyDecompress, hc] at h
    exact ⟨h.symm, hc⟩
  · simp [toyDecompress, hc] at h

/-- Round trip of the codec without trailing bytes. -/
theorem decode_encode (sf : SignedFile) (h64 : sf.signature.length = 64)
    (hsz : sf.file_size < 2 ^ 64) (hlen : sf.file.length < 2 ^ 64) :
    SignedFile.decode sf.encode = .ok sf := by
  have h := decode_encode_append sf [] h64 hsz hlen
  simpa using h

/-- C5: Codec round-trip: for every constructible bundle — any 64-byte
signature, any `u64` file size, any payload of representable length,
including the empty payload — `SignedFile::decode (SignedFile::encode b)`
succeeds and returns `b` field by field. -/
theorem codec_roundtrip (sf : SignedFile) (h64 : sf.signature.length = 64)
    (hsz : sf.file_size < 2 ^ 64) (hlen : sf.file.length < 2 ^ 64) :
    SignedFile.decode sf.encode = .ok sf :=
  decode_encode sf h64 hsz hlen

theorem codec_roundtrip_witness :
    SignedFile.decode (SignedFile.new [] (List.replicate 64 0) 0).encode =
      .ok (SignedFile.new [] (List.replicate 64 0) 0) :=
  codec_roundtrip (SignedFile.new [] (List.replicate 64 0) 0)
    (by simp [SignedFile.new]) (by norm_num [SignedFile.new]) (by norm_num [SignedFile.new])

/-- C4 counterexample: a well-formed encoded bundle followed by one extra
trailing byte still decodes successfully — the legacy bincode options that
`bincode::deserialize` uses ignore trailing bytes — so `SignedFile::decode`
does not fail when extra bytes trail the payload. -/
theorem decode_accepts_trailing_byte :
    SignedFile.decode ((SignedFile.new [1, 2] (List.replicate 64 0) 5).encode ++ [9]) =
      .ok (SignedFile.new [1, 2] (List.replicate 64 0) 5) :=
  decode_encode_append (SignedFile.new [1, 2] (List.replicate 64 0) 5) [9]
    (by simp [SignedFile.new]) (by norm_num [SignedFile.new]) (by norm_num [SignedFile.new])

/-- C4 (amended): `SignedFile::decode` fails with a decoding error whenever
the declared payload length exceeds the bytes actually remaining after the
fixed fields; extra bytes trailing the payload, however, are ignored and
decoding succeeds on them. -/
theorem decode_length_validation_amended :
    (∀ sig fsz plen payload, sig.length = 64 → plen < 2 ^ 64 →
      payload.length < plen →
      SignedFile.decode (sig ++ u64le fsz ++ u64le plen ++ payload) =
        .error .FileDecoding) ∧
    (∀ sf extra, sf.signature.length = 64 → sf.file_size < 2 ^ 64 →
      sf.file.length < 2 ^ 64 →
      SignedFile.decode (sf.encode ++ extra) = .ok sf) := by
  constructor
  · intro sig fsz plen payload h64 hplen hshort
    have h4 : readBytes (fromLEBytes (u64le plen)) payload = none := by
      rw [fromLEBytes_u64le _ hplen]
      simp only [readBytes, ite_eq_right_iff]
      intro hle
      omega
    have hre : sig ++ u64le fsz ++ u64le plen ++ payload
        = sig ++ (u64le fsz ++ (u64le plen ++ payload)) := by simp
    rw [hre]
    simp [SignedFile.decode, readBytes_exact sig _ h64,
      readU64_exact _ _ (u64le_length fsz), readU64_exact _ _ (u64le_length plen), h4]
  · intro sf extra h64 hsz hlen
    exact decode_encode_append sf extra h64 hsz hlen

theorem decode_length_validation_amended_witness :
    SignedFile.decode (List.replicate 64 0 ++ u64le 0 ++ u64le 3 ++ [7]) =
      .error .FileDecoding ∧
    SignedFile.decode ((SignedFile.new [] (List.replicate 64 1) 0).encode ++ [0]) =
      .ok (SignedFile.new [] (List.replicate 64 1) 0) :=
  ⟨decode_length_validation_amended.1 (List.replicate 64 0) 0 3 [7]
      (by norm_num) (by norm_num) (by norm_num),
   decode_length_validation_amended.2 (SignedFile.new [] (List.replicate 64 1) 0) [0]
      (by simp [SignedFile.new]) (by norm_num [SignedFile.new]) (by norm_num [SignedFile.new])⟩

theorem take_append_of_length (l1 l2 : List Nat) {n : Nat} (h : l1.length = n) :
    (l1 ++ l2).take n = l1 := by
  subst h
  exact take_append_length l1 l2

theorem drop_append_of_length (l1 l2 : List Nat) {n : Nat} (h : l1.length = n) :
    (l1 ++ l2).drop n = l2 := by
  subst h
  exact drop_append_length l1 l2

/-- C7: Bundle byte layout: the encoder emits, in fixed order, the 64
signature bytes, then the 8-byte little-endian `u64` original size, then an
8-byte `u64` payload-length prefix holding the payload length, then exactly
the payload bytes and nothing else. -/
theorem bundle_layout (sf : SignedFile) (h64 : sf.signature.length = 64)
    (hsz : sf.file_size < 2 ^ 64) (hlen : sf.file.length < 2 ^ 64) :
    sf.encode.take 64 = sf.signature ∧
    (sf.encode.drop 64).take 8 = u64le sf.file_size ∧
    fromLEBytes ((sf.encode.drop 64).take 8) = sf.file_size ∧
    ((sf.encode.drop 64).drop 8).take 8 = u64le sf.file.length ∧
    fromLEBytes (((sf.encode.drop 64).drop 8).take 8) = sf.file.length ∧
    ((sf.encode.drop 64).drop 8).drop 8 = sf.file ∧
    sf.encode.length = 64 + 8 + 8 + sf.file.length := by
  have hre : sf.encode =
      sf.signature ++ (u64le sf.file_size ++ (u64le sf.file.length ++ sf.file)) := by
    simp [SignedFile.encode]
  have h1 : sf.encode.take 64 = sf.signature := by
    rw [hre, take_append_of_length _ _ h64]
  have h2 : sf.encode.drop 64 = u64le sf.file_size ++ (u64le sf.file.length ++ sf.file) := by
    rw [hre, drop_append_of_length _ _ h64]
  have h3 : (sf.encode.drop 64).take 8 = u64le sf.file_size := by
    rw [h2, take_append_of_length _ _ (u64le_length _)]
  have h4 : (sf.encode.drop 64).drop 8 = u64le sf.file.length ++ sf.file := by
    rw [h2, drop_append_of_length _ _ (u64le_length _)]
  have h5 : ((sf.encode.drop 64).drop 8).take 8 = u64le sf.file.length := by
    rw [h4, take_append_of_length _ _ (u64le_length _)]
  refine ⟨h1, h3, ?_, h5, ?_, ?_, ?_⟩
  · rw [h3, fromLEBytes_u64le _ hsz]
  · rw [h5, fromLEBytes_u64le _ hlen]
  · rw [h4, drop_append_of_length _ _ (u64le_length _)]
  · rw [hre]
    simp [h64, u64le_length]
    omega

theorem bundle_layout_witness :
    (SignedFile.new [3] (List.replicate 64 2) 1).encode.take 64 =
        (SignedFile.new [3] (List.replicate 64 2) 1).signature ∧
      ((SignedFile.new [3] (List.replicate 64 2) 1).encode.drop 64).take 8 = u64le 1 ∧
      fromLEBytes (((SignedFile.new [3] (List.replicate 64 2) 1).encode.drop 64).take 8) = 1 ∧
      (((SignedFile.new [3] (List.replicate 64 2) 1).encode.drop 64).drop 8).take 8 = u64le 1 ∧
      fromLEBytes ((((SignedFile.new [3] (List.replicate 64 2) 1).encode.drop 64).drop 8).take 8) = 1 ∧
      (((SignedFile.new [3] (List.replicate 64 2) 1).encode.drop 64).drop 8).drop 8 = [3] ∧
      (SignedFile.new [3] (List.replicate 64 2) 1).encode.length = 64 + 8 + 8 + 1 :=
  bundle_layout (SignedFile.new [3] (List.replicate 64 2) 1)
    (by simp [SignedFile.new]) (by norm_num [SignedFile.new]) (by norm_num [SignedFile.new])

/-- C6: Atomicity on failure: each failing step of `sign_file` (key read,
key parse, file read, signing, compression) and of `verify_file` (key
read, key parse, file read, decoding, decompression, signature
verification) makes the pipeline return the corresponding tagged error
together with an empty list of performed writes: no output file is written
on failure. -/
theorem no_output_on_failure {SK VK : Type}
    (hash : List Nat → List Nat) (sign_prehashed : SK → List Nat → Option (List Nat))
    (verify_prehashed : VK → List Nat → List Nat → Bool)
    (compress : List Nat → Int → Option (List Nat))
    (decompress : List Nat → Nat → Option (List Nat))
    (from_pkcs8_der : List Nat → Option SK) (verifying_key : SK → VK)
    (from_public_key_der : List Nat → Option VK)
    (fsRead fsReadV : String → Option (List Nat))
    (file_path key_path vfile_path vkey_path : String)
    (output_path voutput_path : Option String) (compression_level : Int) :
    (fsRead key_path = none →
      sign_file hash sign_prehashed compress from_pkcs8_der verifying_key fsRead
        file_path key_path output_path compression_level = (.error BinsignError.FileIO, [])) ∧
    (∀ kd, fsRead key_path = some kd → from_pkcs8_der kd = none →
      sign_file hash sign_prehashed compress from_pkcs8_der verifying_key fsRead
        file_path key_path output_path compression_level =
          (.error .PrivateKeyDeserialization, [])) ∧
    (∀ kd sk, fsRead key_path = some kd → from_pkcs8_der kd = some sk →
      fsRead file_path = none →
      sign_file hash sign_prehashed compress from_pkcs8_der verifying_key fsRead
        file_path key_path output_path compression_level = (.error BinsignError.FileIO, [])) ∧
    (∀ kd sk f, fsRead key_path = some kd → from_pkcs8_der kd = some sk →
      fsRead file_path = some f → sign_prehashed sk (hash f) = none →
      sign_file hash sign_prehashed compress from_pkcs8_der verifying_key fsRead
        file_path key_path output_path compression_level = (.error .Signing, [])) ∧
    (∀ kd sk f s, fsRead key_path = some kd → from_pkcs8_der kd = some sk →
      fsRead file_path = some f → sign_prehashed sk (hash f) = some s →
      compress f compression_level = none →
      sign_file hash sign_prehashed compress from_pkcs8_der verifying_key fsRead
        file_path key_path output_path compression_level =
          (.error .ZstdCompression, [])) ∧
    (fsReadV vkey_path = none →
      verify_file hash verify_prehashed decompress from_public_key_der fsReadV
        vfile_path vkey_path voutput_path = (.error BinsignError.FileIO, [])) ∧
    (∀ pkd, fsReadV vkey_path = some pkd → from_public_key_der pkd = none →
      verify_file hash verify_prehashed decompress from_public_key_der fsReadV
        vfile_path vkey_path voutput_path = (.error .PublicKeyDeserialization, [])) ∧
    (∀ pkd vk, fsReadV vkey_path = some pkd → from_public_key_der pkd = some vk →
      fsReadV vfile_path = none →
      verify_file hash verify_prehashed decompress from_public_key_der fsReadV
        vfile_path vkey_path voutput_path = (.error BinsignError.FileIO, [])) ∧
    (∀ pkd vk bc, fsReadV vkey_path = some pkd → from_public_key_der pkd = some vk →
      fsReadV vfile_path = some bc → SignedFile.decode bc = .error .FileDecoding →
      verify_file hash verify_prehashed decompress from_public_key_der fsReadV
        vfile_path vkey_path voutput_path = (.error .FileDecoding, [])) ∧
    (∀ pkd vk bc sf, fsReadV vkey_path = some pkd → from_public_key_der pkd = some vk →
      fsReadV vfile_path = some bc → SignedFile.decode bc = .ok sf →
      decompress sf.file sf.file_size = none →
      verify_file hash verify_prehashed decompress from_public_key_der fsReadV
        vfile_path vkey_path voutput_path = (.error .ZstdDecompression, [])) ∧
    (∀ pkd vk bc sf f2, fsReadV vkey_path = some pkd → from_public_key_der pkd = some vk →
      fsReadV vfile_path = some bc → SignedFile.decode bc = .ok sf →
      decompress sf.file sf.file_size = some f2 →
      verify_prehashed vk (hash f2) sf.signature = false →
      verify_file hash verify_prehashed decompress from_public_key_der fsReadV
        vfile_path vkey_path voutput_path = (.error .Verification, [])) := by
  refine ⟨?_, ?_, ?_, ?_, ?_, ?_, ?_, ?_, ?_, ?_, ?_⟩
  · intro h
    simp [sign_file, read_keypair_from_file, h]
  · intro kd h1 h2
    simp [sign_file, read_keypair_from_file, h1, h2]
  · intro kd sk h1 h2 h3
    simp [sign_file, read_keypair_from_file, h1, h2, h3]
  · intro kd sk f h1 h2 h3 h4
    simp [sign_file, read_keypair_from_file, h1, h2, h3, h4]
  · intro kd sk f s h1 h2 h3 h4 h5
    simp [sign_file, read_keypair_from_file, h1, h2, h3, h4, h5]
  · intro h
    simp [verify_file, read_verifying_key_from_file, h]
  · intro pkd h1 h2
    simp [verify_file, read_verifying_key_from_file, h1, h2]
  · intro pkd vk h1 h2 h3
    simp [verify_file, read_verifying_key_from_file, h1, h2, h3]
  · intro pkd vk bc h1 h2 h3 h4
    simp [verify_file, read_verifying_key_from_file, h1, h2, h3, h4]
  · intro pkd vk bc sf h1 h2 h3 h4 h5
    simp [verify_file, read_verifying_key_from_file, h1, h2, h3, h4, h5]
  · intro pkd vk bc sf f2 h1 h2 h3 h4 h5 h6
    simp [verify_file, read_verifying_key_from_file, h1, h2, h3, h4, h5, h6]

theorem no_output_on_failure_witness :
    sign_file idHash toySign toyCompress toyParseSK toyDeriveVK (fun _ => none)
      "file" "key" none 3 = (.error BinsignError.FileIO, []) ∧
    verify_file idHash toyVerify toyDecompress toyParseVK (fun _ => none)
      "bundle" "key" none = (.error BinsignError.FileIO, []) :=
  ⟨(no_output_on_failure idHash toySign toyVerify toyCompress toyDecompress toyParseSK
      toyDeriveVK toyParseVK (fun _ => none) (fun _ => none) "file" "key" "bundle"
      "key" none none 3).1 rfl,
   (no_output_on_failure idHash toySign toyVerify toyCompress toyDecompress toyParseSK
      toyDeriveVK toyParseVK (fun _ => none) (fun _ => none) "file" "key" "bundle"
      "key" none none 3).2.2.2.2.2.1 rfl⟩

/-- C8: In every successful run of `sign_file`, the bundle written out is
built as `SignedFile::new(compressed, signature, original_size)` with
`original_size` equal to the exact byte length of the file content before
compression, and decoding that bundle returns `file_size` equal to that
length. -/
theorem original_size_eq_input_length {SK VK : Type}
    (hash : List Nat → List Nat) (sign_prehashed : SK → List Nat → Option (List Nat))
    (compress : List Nat → Int → Option (List Nat))
    (from_pkcs8_der : List Nat → Option SK) (verifying_key : SK → VK)
    (fsRead : String → Option (List Nat)) (file_path key_path : String)
    (output_path : Option String) (compression_level : Int)
    (kd : List Nat) (sk : SK) (f s c : List Nat)
    (hk : fsRead key_path = some kd) (hp : from_pkcs8_der kd = some sk)
    (hf : fsRead file_path = some f)
    (hs : sign_prehashed sk (hash f) = some s)
    (hc : compress f compression_level = some c)
    (hs64 : s.length = 64) (hflen : f.length < 2 ^ 64) (hclen : c.length < 2 ^ 64) :
    sign_file hash sign_prehashed compress from_pkcs8_der verifying_key fsRead
        file_path key_path output_path compression_level =
      (.ok (), [(resolve_output file_path output_path ".sig",
        (SignedFile.new c s f.length).encode)]) ∧
    SignedFile.decode (SignedFile.new c s f.length).encode =
      .ok (SignedFile.new c s f.length) := by
  constructor
  · simp [sign_file, read_keypair_from_file, hk, hp, hf, hs, hc]
  · exact decode_encode (SignedFile.new c s f.length) (by simpa [SignedFile.new] using hs64)
      (by simpa [SignedFile.new] using hflen) (by simpa [SignedFile.new] using hclen)

theorem original_size_eq_input_length_witness :
    sign_file idHash toySign toyCompress toyParseSK toyDeriveVK demoFS
        "file" "key" none 3 =
      (.ok (), [(resolve_output "file" none ".sig",
        (SignedFile.new demoContent demoSig demoContent.length).encode)]) ∧
    SignedFile.decode (SignedFile.new demoContent demoSig demoContent.length).encode =
      .ok (SignedFile.new demoContent demoSig demoContent.length) :=
  original_size_eq_input_length idHash toySign toyCompress toyParseSK toyDeriveVK demoFS
    "file" "key" none 3 [0] 0 demoContent demoSig demoContent
    (by simp [demoFS]) rfl (by simp [demoFS]) rfl rfl
    (by simp [demoSig, demoContent]) (by simp [demoContent]) (by simp [demoContent])

/-- C9: Default output naming: when no explicit output path is given, a
successful `sign_file` writes its bundle to the input file path with the
fixed suffix `.sig` appended, and a successful `verify_file` writes the
recovered file to the input path with the fixed suffix `.ver` appended. -/
theorem default_output_naming {SK VK : Type}
    (hash : List Nat → List Nat) (sign_prehashed : SK → List Nat → Option (List Nat))
    (verify_prehashed : VK → List Nat → List Nat → Bool)
    (compress : List Nat → Int → Option (List Nat))
    (decompress : List Nat → Nat → Option (List Nat))
    (from_pkcs8_der : List Nat → Option SK) (verifying_key : SK → VK)
    (from_public_key_der : List Nat → Option VK)
    (fsRead fsReadV : String → Option (List Nat))
    (file_path key_path vfile_path vkey_path : String) (compression_level : Int)
    (kd : List Nat) (sk : SK) (f s c : List Nat)
    (pkd : List Nat) (vk : VK) (bc : List Nat) (sf : SignedFile) (f2 : List Nat)
    (hk : fsRead key_path = some kd) (hp : from_pkcs8_der kd = some sk)
    (hf : fsRead file_path = some f)
    (hs : sign_prehashed sk (hash f) = some s)
    (hc : compress f compression_level = some c)
    (hvk : fsReadV vkey_path = some pkd) (hvp : from_public_key_der pkd = some vk)
    (hvf : fsReadV vfile_path = some bc) (hdc : SignedFile.decode bc = .ok sf)
    (hdz : decompress sf.file sf.file_size = some f2)
    (hvv : verify_prehashed vk (hash f2) sf.signature = true) :
    sign_file hash sign_prehashed compress from_pkcs8_der verifying_key fsRead
        file_path key_path none compression_level =
      (.ok (), [(file_path ++ ".sig", (SignedFile.new c s f.length).encode)]) ∧
    verify_file hash verify_prehashed decompress from_public_key_der fsReadV
        vfile_path vkey_path none =
      (.ok (), [(vfile_path ++ ".ver", f2)]) := by
  constructor
  · simp [sign_file, read_keypair_from_file, resolve_output, hk, hp, hf, hs, hc]
  · simp [verify_file, read_verifying_key_from_file, resolve_output, hvk, hvp, hvf,
      hdc, hdz, hvv]

theorem default_output_naming_witness :
    sign_file idHash toySign toyCompress toyParseSK toyDeriveVK demoFS
        "file" "key" none 3 =
      (.ok (), [("file" ++ ".sig", (SignedFile.new demoContent demoSig
        demoContent.length).encode)]) ∧
    verify_file idHash toyVerify toyDecompress toyParseVK demoVerifyFS
        "bundle" "key" none =
      (.ok (), [("bundle" ++ ".ver", demoContent)]) :=
  default_output_naming idHash toySign toyVerify toyCompress toyDecompress toyParseSK
    toyDeriveVK toyParseVK demoFS demoVerifyFS "file" "key" "bundle" "key" 3
    [0] 0 demoContent demoSig demoContent
    [0] 0 (SignedFile.new demoContent demoSig demoContent.length).encode
    (SignedFile.new demoContent demoSig demoContent.length) demoContent
    (by simp [demoFS]) rfl (by simp [demoFS]) rfl rfl
    (by simp [demoVerifyFS]) rfl (by simp [demoVerifyFS])
    (decode_encode _ (by simp [SignedFile.new, demoSig, demoContent])
      (by simp [SignedFile.new, demoContent]) (by simp [SignedFile.new, demoContent]))
    (by simp [SignedFile.new, toyDecompress, demoContent])
    (by simp [SignedFile.new, toyVerify, idHash, demoSig])

/-- C10: `sign_file` performs no range check on the compression level:
every integer level (the whole `i32` range included) is passed unchanged
to the compression service; when that service fails the pipeline surfaces
the tagged `ZstdCompression` error (and writes nothing), and when it
succeeds the pipeline completes normally. -/
theorem compression_level_unchecked {SK VK : Type}
    (hash : List Nat → List Nat) (sign_prehashed : SK → List Nat → Option (List Nat))
    (compress : List Nat → Int → Option (List Nat))
    (from_pkcs8_der : List Nat → Option SK) (verifying_key : SK → VK)
    (fsRead : String → Option (List Nat)) (file_path key_path : String)
    (output_path : Option String) (compression_level : Int)
    (kd : List Nat) (sk : SK) (f s : List Nat)
    (hk : fsRead key_path = some kd) (hp : from_pkcs8_der kd = some sk)
    (hf : fsRead file_path = some f)
    (hs : sign_prehashed sk (hash f) = some s) :
    (compress f compression_level = none →
      sign_file hash sign_prehashed compress from_pkcs8_der verifying_key fsRead
        file_path key_path output_path compression_level =
          (.error .ZstdCompression, [])) ∧
    (∀ c, compress f compression_level = some c →
      sign_file hash sign_prehashed compress from_pkcs8_der verifying_key fsRead
        file_path key_path output_path compression_level =
          (.ok (), [(resolve_output file_path output_path ".sig",
            (SignedFile.new c s f.length).encode)])) := by
  constructor
  · intro hc
    simp [sign_file, read_keypair_from_file, hk, hp, hf, hs, hc]
  · intro c hc
    simp [sign_file, read_keypair_from_file, hk, hp, hf, hs, hc]

theorem compression_level_unchecked_witness :
    sign_file idHash toySign toyCompressBounded toyParseSK toyDeriveVK demoFS
        "file" "key" none 100 = (.error .ZstdCompression, []) ∧
    sign_file idHash toySign toyCompress toyParseSK toyDeriveVK demoFS
        "file" "key" none 100 =
      (.ok (), [(resolve_output "file" none ".sig",
        (SignedFile.new demoContent demoSig demoContent.length).encode)]) :=
  ⟨(compression_level_unchecked idHash toySign toyCompressBounded toyParseSK toyDeriveVK
      demoFS "file" "key" none 100 [0] 0 demoContent demoSig
      (by simp [demoFS]) rfl (by simp [demoFS]) rfl).1
      (by simp [toyCompressBounded]),
   (compression_level_unchecked idHash toySign toyCompress toyParseSK toyDeriveVK
      demoFS "file" "key" none 100 [0] 0 demoContent demoSig
      (by simp [demoFS]) rfl (by simp [demoFS]) rfl).2 demoContent rfl⟩

/-- C2: Hash-then-sign-then-compress ordering: every bundle `sign_file`
produces stores the prehashed signature computed over the hash of the
original (uncompressed) file bytes — the same signature `s` for every
compression level, never a signature over the compressed payload — and
`verify_file` checks that signature against the hash of the decompressed
bytes, so (under the compression service's round-trip contract) which
compression level was used never affects whether the signature
verifies. -/
theorem hash_then_sign_then_compress {SK VK : Type}
    (hash : List Nat → List Nat) (sign_prehashed : SK → List Nat → Option (List Nat))
    (verify_prehashed : VK → List Nat → List Nat → Bool)
    (compress : List Nat → Int → Option (List Nat))
    (decompress : List Nat → Nat → Option (List Nat))
    (from_pkcs8_der : List Nat → Option SK) (verifying_key : SK → VK)
    (from_public_key_der : List Nat → Option VK)
    (fsRead fsV1 fsV2 : String → Option (List Nat))
    (file_path key_path bp1 bp2 vkey_path : String)
    (output_path op1 op2 : Option String) (L1 L2 : Int)
    (kd : List Nat) (sk : SK) (f s c1 c2 pkd : List Nat) (vk : VK)
    (hk : fsRead key_path = some kd) (hp : from_pkcs8_der kd = some sk)
    (hf : fsRead file_path = some f)
    (hs : sign_prehashed sk (hash f) = some s) (hs64 : s.length = 64)
    (hc1 : compress f L1 = some c1) (hc2 : compress f L2 = some c2)
    (hflen : f.length < 2 ^ 64) (hc1len : c1.length < 2 ^ 64)
    (hc2len : c2.length < 2 ^ 64)
    (hd1 : decompress c1 f.length = some f) (hd2 : decompress c2 f.length = some f)
    (hv1k : fsV1 vkey_path = some pkd) (hv2k : fsV2 vkey_path = some pkd)
    (hpk : from_public_key_der pkd = some vk)
    (hb1 : fsV1 bp1 = some (SignedFile.new c1 s f.length).encode)
    (hb2 : fsV2 bp2 = some (SignedFile.new c2 s f.length).encode) :
    sign_file hash sign_prehashed compress from_pkcs8_der verifying_key fsRead
        file_path key_path output_path L1 =
      (.ok (), [(resolve_output file_path output_path ".sig",
        (SignedFile.new c1 s f.length).encode)]) ∧
    sign_file hash sign_prehashed compress from_pkcs8_der verifying_key fsRead
        file_path key_path output_path L2 =
      (.ok (), [(resolve_output file_path output_path ".sig",
        (SignedFile.new c2 s f.length).encode)]) ∧
    verify_file hash verify_prehashed decompress from_public_key_der fsV1
        bp1 vkey_path op1 =
      (if verify_prehashed vk (hash f) s = true then
        (.ok (), [(resolve_output bp1 op1 ".ver", f)])
      else (.error .Verification, [])) ∧
    verify_file hash verify_prehashed decompress from_public_key_der fsV2
        bp2 vkey_path op2 =
      (if verify_prehashed vk (hash f) s = true then
        (.ok (), [(resolve_output bp2 op2 ".ver", f)])
      else (.error .Verification, [])) ∧
    ((verify_file hash verify_prehashed decompress from_public_key_der fsV1
        bp1 vkey_path op1).1 = .ok () ↔
      (verify_file hash verify_prehashed decompress from_public_key_der fsV2
        bp2 vkey_path op2).1 = .ok ()) := by
  have hdc1 : SignedFile.decode (SignedFile.new c1 s f.length).encode =
      .ok (SignedFile.new c1 s f.length) :=
    decode_encode _ (by simpa [SignedFile.new] using hs64)
      (by simpa [SignedFile.new] using hflen) (by simpa [SignedFile.new] using hc1len)
  have hdc2 : SignedFile.decode (SignedFile.new c2 s f.length).encode =
      .ok (SignedFile.new c2 s f.length) :=
    decode_encode _ (by simpa [SignedFile.new] using hs64)
      (by simpa [SignedFile.new] using hflen) (by simpa [SignedFile.new] using hc2len)
  simp only [SignedFile.new] at hdc1 hdc2
  have hv1 : verify_file hash verify_prehashed decompress from_public_key_der fsV1
      bp1 vkey_path op1 =
      (if verify_prehashed vk (hash f) s = true then
        (.ok (), [(resolve_output bp1 op1 ".ver", f)])
      else (.error .Verification, [])) := by
    cases hv : verify_prehashed vk (hash f) s with
    | false =>
      simp [verify_file, read_verifying_key_from_file, hv1k, hpk, hb1, hdc1,
        SignedFile.new, hd1, hv]
    | true =>
      simp [verify_file, read_verifying_key_from_file, hv1k, hpk, hb1, hdc1,
        SignedFile.new, hd1, hv]
  have hv2 : verify_file hash verify_prehashed decompress from_public_key_der fsV2
      bp2 vkey_path op2 =
      (if verify_prehashed vk (hash f) s = true then
        (.ok (), [(resolve_output bp2 op2 ".ver", f)])
      else (.error .Verification, [])) := by
    cases hv : verify_prehashed vk (hash f) s with
    | false =>
      simp [verify_file, read_verifying_key_from_file, hv2k, hpk, hb2, hdc2,
        SignedFile.new, hd2, hv]
    | true =>
      simp [verify_file, read_verifying_key_from_file, hv2k, hpk, hb2, hdc2,
        SignedFile.new, hd2, hv]
  refine ⟨?_, ?_, hv1, hv2, ?_⟩
  · simp [sign_file, read_keypair_from_file, hk, hp, hf, hs, hc1]
  · simp [sign_file, read_keypair_from_file, hk, hp, hf, hs, hc2]
  · rw [hv1, hv2]
    cases hv : verify_prehashed vk (hash f) s <;> simp [hv]

theorem hash_then_sign_then_compress_witness :
    sign_file idHash toySign toyCompress toyParseSK toyDeriveVK demoFS
        "file" "key" none 3 =
      (.ok (), [(resolve_output "file" none ".sig",
        (SignedFile.new demoContent demoSig demoContent.length).encode)]) ∧
    sign_file idHash toySign toyCompress toyParseSK toyDeriveVK demoFS
        "file" "key" none 19 =
      (.ok (), [(resolve_output "file" none ".sig",
        (SignedFile.new demoContent demoSig demoContent.length).encode)]) ∧
    verify_file idHash toyVerify toyDecompress toyParseVK demoVerifyFS
        "bundle" "key" none =
      (if toyVerify 0 (idHash demoContent) demoSig = true then
        (.ok (), [(resolve_output "bundle" none ".ver", demoContent)])
      else (.error .Verification, [])) ∧
    verify_file idHash toyVerify toyDecompress toyParseVK demoVerifyFS
        "bundle" "key" none =
      (if toyVerify 0 (idHash demoContent) demoSig = true then
        (.ok (), [(resolve_output "bundle" none ".ver", demoContent)])
      else (.error .Verification, [])) ∧
    ((verify_file idHash toyVerify toyDecompress toyParseVK demoVerifyFS
        "bundle" "key" none).1 = .ok () ↔
      (verify_file idHash toyVerify toyDecompress toyParseVK demoVerifyFS
        "bundle" "key" none).1 = .ok ()) :=
  hash_then_sign_then_compress idHash toySign toyVerify toyCompress toyDecompress
    toyParseSK toyDeriveVK toyParseVK demoFS demoVerifyFS demoVerifyFS
    "file" "key" "bundle" "bundle" "key" none none none 3 19
    [0] 0 demoContent demoSig demoContent demoContent [0] 0
    (by simp [demoFS]) rfl (by simp [demoFS]) rfl
    (by simp [demoSig, demoContent]) rfl rfl
    (by simp [demoContent]) (by simp [demoContent]) (by simp [demoContent])
    (by simp [toyDecompress, demoContent]) (by simp [toyDecompress, demoContent])
    (by simp [demoVerifyFS]) (by simp [demoVerifyFS]) rfl
    (by simp [demoVerifyFS]) (by simp [demoVerifyFS])

/-- C1: End-to-end round trip: signing a file with the private key and
then verifying the resulting bundle with the matching public key succeeds
and recovers exactly the original content, given the documented contracts
of the leaf services — the compression service inverts `compress` at the
original length, and the public key accepts the private key's signature
over the file's digest. -/
theorem sign_verify_roundtrip {SK VK : Type}
    (hash : List Nat → List Nat) (sign_prehashed : SK → List Nat → Option (List Nat))
    (verify_prehashed : VK → List Nat → List Nat → Bool)
    (compress : List Nat → Int → Option (List Nat))
    (decompress : List Nat → Nat → Option (List Nat))
    (from_pkcs8_der : List Nat → Option SK) (verifying_key : SK → VK)
    (from_public_key_der : List Nat → Option VK)
    (fsRead fsV : String → Option (List Nat))
    (file_path key_path bundle_path vkey_path : String)
    (output_path voutput_path : Option String) (compression_level : Int)
    (kd : List Nat) (sk : SK) (f s c pkd : List Nat) (vk : VK)
    (hk : fsRead key_path = some kd) (hp : from_pkcs8_der kd = some sk)
    (hf : fsRead file_path = some f)
    (hs : sign_prehashed sk (hash f) = some s) (hs64 : s.length = 64)
    (hc : compress f compression_level = some c)
    (hflen : f.length < 2 ^ 64) (hclen : c.length < 2 ^ 64)
    (hdz : decompress c f.length = some f)
    (hvk : fsV vkey_path = some pkd) (hpk : from_public_key_der pkd = some vk)
    (hmatch : verify_prehashed vk (hash f) s = true)
    (hb : fsV bundle_path = some (SignedFile.new c s f.length).encode) :
    sign_file hash sign_prehashed compress from_pkcs8_der verifying_key fsRead
        file_path key_path output_path compression_level =
      (.ok (), [(resolve_output file_path output_path ".sig",
        (SignedFile.new c s f.length).encode)]) ∧
    verify_file hash verify_prehashed decompress from_public_key_der fsV
        bundle_path vkey_path voutput_path =
      (.ok (), [(resolve_output bundle_path voutput_path ".ver", f)]) := by
  have hdc : SignedFile.decode (SignedFile.new c s f.length).encode =
      .ok (SignedFile.new c s f.length) :=
    decode_encode _ (by simpa [SignedFile.new] using hs64)
      (by simpa [SignedFile.new] using hflen) (by simpa [SignedFile.new] using hclen)
  simp only [SignedFile.new] at hdc
  constructor
  · simp [sign_file, read_keypair_from_file, hk, hp, hf, hs, hc]
  · simp [verify_file, read_verifying_key_from_file, hvk, hpk, hb, hdc,
      SignedFile.new, hdz, hmatch]

theorem sign_verify_roundtrip_witness :
    sign_file idHash toySign toyCompress toyParseSK toyDeriveVK demoFS
        "file" "key" none 3 =
      (.ok (), [(resolve_output "file" none ".sig",
        (SignedFile.new demoContent demoSig demoContent.length).encode)]) ∧
    verify_file idHash toyVerify toyDecompress toyParseVK demoVerifyFS
        "bundle" "key" none =
      (.ok (), [(resolve_output "bundle" none ".ver", demoContent)]) :=
  sign_verify_roundtrip idHash toySign toyVerify toyCompress toyDecompress
    toyParseSK toyDeriveVK toyParseVK demoFS demoVerifyFS
    "file" "key" "bundle" "key" none none 3
    [0] 0 demoContent demoSig demoContent [0] 0
    (by simp [demoFS]) rfl (by simp [demoFS]) rfl
    (by simp [demoSig, demoContent]) rfl
    (by simp [demoContent]) (by simp [demoContent])
    (by simp [toyDecompress, demoContent])
    (by simp [demoVerifyFS]) rfl
    (by simp [toyVerify, idHash, demoSig])
    (by simp [demoVerifyFS])

theorem toyDecompress_len (c : List Nat) (n : Nat) (f : List Nat)
    (h : toyDecompress c n = some f) : f.length = n := by
  obtain ⟨he, hn⟩ := toyDecompress_spec c n f h
  rw [he, hn]

theorem toyDecompress_fun (c : List Nat) (n1 n2 : Nat) (f1 f2 : List Nat)
    (h1 : toyDecompress c n1 = some f1) (h2 : toyDecompress c n2 = some f2) :
    f1 = f2 := by
  obtain ⟨he1, _⟩ := toyDecompress_spec c n1 f1 h1
  obtain ⟨he2, _⟩ := toyDecompress_spec c n2 f2 h2
  rw [he1, he2]

theorem toyDecompress_inj (c1 c2 : List Nat) (n : Nat) (f : List Nat)
    (h1 : toyDecompress c1 n = some f) (h2 : toyDecompress c2 n = some f) :
    c1 = c2 := by
  obtain ⟨he1, _⟩ := toyDecompress_spec c1 n f h1
  obtain ⟨he2, _⟩ := toyDecompress_spec c2 n f h2
  rw [← he1, ← he2]

theorem toyVerify_bind (vk : Nat) (d1 d2 s : List Nat)
    (h1 : toyVerify vk d1 s = true) (h2 : toyVerify vk d2 s = true) : d1 = d2 := by
  simp only [toyVerify, decide_eq_true_eq] at h1 h2
  have h := h1.symm.trans h2
  exact List.append_cancel_right h

theorem toyVerify_uniq (vk : Nat) (d s1 s2 : List Nat)
    (h1 : toyVerify vk d s1 = true) (h2 : toyVerify vk d s2 = true) : s1 = s2 := by
  simp only [toyVerify, decide_eq_true_eq] at h1 h2
  rw [h1, h2]

theorem idHash_inj (a b : List Nat) (h : idHash a = idHash b) : a = b := h

/-- File system for the tamper-detection witness: at path `bundle`, a valid
demo bundle whose first signature byte has been altered; the zero key byte
elsewhere. -/
def tamperFS : String → Option (List Nat) :=
  fun p =>
    if p = "bundle" then
      some ((SignedFile.new (List.replicate 63 4) (List.replicate 63 4 ++ [0])
        63).encode.set 0 5)
    else some [0]

/-- C3: Tamper detection: take an otherwise valid bundle — it decodes to
signature `s`, size `n` and payload `c`, the payload decompresses to `f`,
and the signature verifies over `hash f` — and change any single byte
(hence in particular flip any single bit) in the encoded signature field,
in the `original_size` field, or in the payload bytes.  Then `verify_file`
fails with an error and performs no write: it never succeeds silently and
never writes altered content.  The cryptographic and compression
assumptions the design documents for the leaf services are hypotheses: a
wrong expected size makes decompression fail (exact-size contract, §2/§8
of the design), decompression output is determined by and determines the
compressed bytes, the hash is collision-free, and for a digest a public
key accepts at most one signature and a signature commits to one
digest. -/
theorem tamper_detection {VK : Type}
    (hash : List Nat → List Nat)
    (verify_prehashed : VK → List Nat → List Nat → Bool)
    (decompress : List Nat → Nat → Option (List Nat))
    (from_public_key_der : List Nat → Option VK)
    (fsRead : String → Option (List Nat)) (file_path key_path : String)
    (output_path : Option String)
    (s c f pkd : List Nat) (n i b' : Nat) (vk : VK)
    (hs64 : s.length = 64) (hn : n < 2 ^ 64) (hclen : c.length < 2 ^ 64)
    (hkey : fsRead key_path = some pkd)
    (hpk : from_public_key_der pkd = some vk)
    (hdec : decompress c n = some f)
    (hver : verify_prehashed vk (hash f) s = true)
    (HdecLen : ∀ c2 n2 f2, decompress c2 n2 = some f2 → f2.length = n2)
    (HdecFun : ∀ c2 n2 n3 f2 f3, decompress c2 n2 = some f2 →
      decompress c2 n3 = some f3 → f2 = f3)
    (HdecInj : ∀ c2 c3 n2 f2, decompress c2 n2 = some f2 →
      decompress c3 n2 = some f2 → c2 = c3)
    (Hhash : ∀ a b, hash a = hash b → a = b)
    (Hbind : ∀ d1 d2 s2, verify_prehashed vk d1 s2 = true →
      verify_prehashed vk d2 s2 = true → d1 = d2)
    (Huniq : ∀ d s1 s2, verify_prehashed vk d s1 = true →
      verify_prehashed vk d s2 = true → s1 = s2)
    (hb : b' < 256)
    (hne : b' ≠ (SignedFile.new c s n).encode.getD i 0)
    (hregion : i < 64 ∨ (64 ≤ i ∧ i < 72) ∨ (80 ≤ i ∧ i < 80 + c.length))
    (hfile : fsRead file_path = some ((SignedFile.new c s n).encode.set i b')) :
    ∃ e, verify_file hash verify_prehashed decompress from_public_key_der fsRead
      file_path key_path output_path = (.error e, []) := by
  have hBassoc : (SignedFile.new c s n).encode
      = s ++ (u64le n ++ (u64le c.length ++ c)) := by
    simp [SignedFile.new, SignedFile.encode]
  rcases hregion with hA | ⟨h1, h2⟩ | ⟨h1, h2⟩
  · -- a byte of the signature field changed
    have hset : (SignedFile.new c s n).encode.set i b'
        = s.set i b' ++ (u64le n ++ (u64le c.length ++ c)) := by
      rw [hBassoc, List.set_append_left i b' (by omega : i < s.length)]
    have hdecoded : SignedFile.decode ((SignedFile.new c s n).encode.set i b')
        = .ok { signature := s.set i b', file_size := n, file := c } := by
      rw [hset]
      have hd := decode_structured' (s.set i b') (u64le n) (u64le c.length) c
        (by simp [hs64]) (u64le_length n) (u64le_length c.length)
        (fromLEBytes_u64le _ hclen)
      rw [hd, fromLEBytes_u64le _ hn]
    have hgd : (SignedFile.new c s n).encode.getD i 0 = s.getD i 0 := by
      rw [hBassoc]
      exact List.getD_append _ _ _ _ (by omega)
    have hsne : s.set i b' ≠ s :=
      set_ne_of_ne s i b' (by omega) (by rw [← hgd]; exact hne)
    have hvfalse : verify_prehashed vk (hash f) (s.set i b') = false := by
      cases hvv : verify_prehashed vk (hash f) (s.set i b') with
      | false => rfl
      | true => exact absurd (Huniq (hash f) (s.set i b') s hvv hver) hsne
    refine ⟨.Verification, ?_⟩
    simp [verify_file, read_verifying_key_from_file, hkey, hpk, hfile, hdecoded,
      hdec, hvfalse]
  · -- a byte of the original_size field changed
    have hset : (SignedFile.new c s n).encode.set i b'
        = s ++ ((u64le n).set (i - 64) b' ++ (u64le c.length ++ c)) := by
      rw [hBassoc, List.set_append_right i b' (by omega : s.length ≤ i), hs64,
        List.set_append_left (i - 64) b' (by rw [u64le_length]; omega)]
    have hszlt : ∀ x ∈ (u64le n).set (i - 64) b', x < 256 := by
      intro x hx
      rcases List.mem_or_eq_of_mem_set hx with hx' | hx'
      · exact leBytes_lt 8 n x hx'
      · omega
    have hgd : (SignedFile.new c s n).encode.getD i 0 = (u64le n).getD (i - 64) 0 := by
      rw [hBassoc, List.getD_append_right _ _ _ _ (by omega : s.length ≤ i), hs64]
      exact List.getD_append _ _ _ _ (by rw [u64le_length]; omega)
    have hne' : (u64le n).set (i - 64) b' ≠ u64le n :=
      set_ne_of_ne _ _ _ (by rw [u64le_length]; omega) (by rw [← hgd]; exact hne)
    have hn' : fromLEBytes ((u64le n).set (i - 64) b') ≠ n := by
      intro hcontra
      apply hne'
      refine fromLEBytes_inj _ _ hszlt (leBytes_lt 8 n) (by simp) ?_
      rw [hcontra, fromLEBytes_u64le _ hn]
    have hdecoded : SignedFile.decode ((SignedFile.new c s n).encode.set i b')
        = .ok { signature := s,
                file_size := fromLEBytes ((u64le n).set (i - 64) b'),
                file := c } := by
      rw [hset]
      exact decode_structured' s ((u64le n).set (i - 64) b') (u64le c.length) c hs64
        (by simp [u64le_length]) (u64le_length c.length) (fromLEBytes_u64le _ hclen)
    have hdz : decompress c (fromLEBytes ((u64le n).set (i - 64) b')) = none := by
      cases hdd : decompress c (fromLEBytes ((u64le n).set (i - 64) b')) with
      | none => rfl
      | some f2 =>
        exfalso
        apply hn'
        have hf2 : f2 = f := HdecFun c _ n f2 f hdd hdec
        have hl2 := HdecLen c _ f2 hdd
        have hlf := HdecLen c n f hdec
        subst hf2
        omega
    refine ⟨.ZstdDecompression, ?_⟩
    simp [verify_file, read_verifying_key_from_file, hkey, hpk, hfile, hdecoded, hdz]
  · -- a byte of the payload changed
    have e1 : (u64le c.length ++ c).set (i - 72) b'
        = u64le c.length ++ c.set (i - 80) b' := by
      rw [List.set_append_right (i - 72) b' (by rw [u64le_length]; omega), u64le_length]
      have he : i - 72 - 8 = i - 80 := by omega
      rw [he]
    have e2 : (u64le n ++ (u64le c.length ++ c)).set (i - 64) b'
        = u64le n ++ (u64le c.length ++ c.set (i - 80) b') := by
      rw [List.set_append_right (i - 64) b' (by rw [u64le_length]; omega), u64le_length]
      have he : i - 64 - 8 = i - 72 := by omega
      rw [he, e1]
    have hset : (SignedFile.new c s n).encode.set i b'
        = s ++ (u64le n ++ (u64le c.length ++ c.set (i - 80) b')) := by
      rw [hBassoc, List.set_append_right i b' (by omega : s.length ≤ i), hs64, e2]
    have g1 : (SignedFile.new c s n).encode.getD i 0
        = (u64le n ++ (u64le c.length ++ c)).getD (i - 64) 0 := by
      rw [hBassoc, List.getD_append_right _ _ _ _ (by omega : s.length ≤ i), hs64]
    have g2 : (u64le n ++ (u64le c.length ++ c)).getD (i - 64) 0
        = (u64le c.length ++ c).getD (i - 72) 0 := by
      rw [List.getD_append_right _ _ _ _ (by rw [u64le_length]; omega), u64le_length]
      have he : i - 64 - 8 = i - 72 := by omega
      rw [he]
    have g3 : (u64le c.length ++ c).getD (i - 72) 0 = c.getD (i - 80) 0 := by
      rw [List.getD_append_right _ _ _ _ (by rw [u64le_length]; omega), u64le_length]
      have he : i - 72 - 8 = i - 80 := by omega
      rw [he]
    have hcne : c.set (i - 80) b' ≠ c :=
      set_ne_of_ne c (i - 80) b' (by omega)
        (by rw [← g3, ← g2, ← g1]; exact hne)
    have hdecoded : SignedFile.decode ((SignedFile.new c s n).encode.set i b')
        = .ok { signature := s, file_size := n, file := c.set (i - 80) b' } := by
      rw [hset]
      have hval : fromLEBytes (u64le c.length) = (c.set (i - 80) b').length := by
        rw [fromLEBytes_u64le _ hclen, List.length_set]
      have hd := decode_structured' s (u64le n) (u64le c.length) (c.set (i - 80) b')
        hs64 (u64le_length n) (u64le_length c.length) hval
      rw [hd, fromLEBytes_u64le _ hn]
    cases hdd : decompress (c.set (i - 80) b') n with
    | none =>
      refine ⟨.ZstdDecompression, ?_⟩
      simp [verify_file, read_verifying_key_from_file, hkey, hpk, hfile, hdecoded, hdd]
    | some f2 =>
      have hfne : f2 ≠ f := by
        intro hcontra
        subst hcontra
        exact hcne (HdecInj _ c n f2 hdd hdec)
      have hvfalse : verify_prehashed vk (hash f2) s = false := by
        cases hvv : verify_prehashed vk (hash f2) s with
        | false => rfl
        | true => exact absurd (Hhash f2 f (Hbind (hash f2) (hash f) s hvv hver)) hfne
      refine ⟨.Verification, ?_⟩
      simp [verify_file, read_verifying_key_from_file, hkey, hpk, hfile, hdecoded,
        hdd, hvfalse]

theorem tamper_detection_witness :
    ∃ e, verify_file idHash toyVerify toyDecompress toyParseVK tamperFS
      "bundle" "key" none = (.error e, []) :=
  tamper_detection idHash toyVerify toyDecompress toyParseVK tamperFS "bundle" "key"
    none (List.replicate 63 4 ++ [0]) (List.replicate 63 4) (List.replicate 63 4)
    [0] 63 0 5 0
    (by simp) (by norm_num) (by simp)
    (by simp [tamperFS]) rfl
    (by simp [toyDecompress])
    (by simp [toyVerify, idHash])
    toyDecompress_len
    (fun c2 n2 n3 f2 f3 hx hy => toyDecompress_fun c2 n2 n3 f2 f3 hx hy)
    (fun c2 c3 n2 f2 hx hy => toyDecompress_inj c2 c3 n2 f2 hx hy)
    idHash_inj
    (fun d1 d2 s2 hx hy => toyVerify_bind 0 d1 d2 s2 hx hy)
    (fun d s1 s2 hx hy => toyVerify_uniq 0 d s1 s2 hx hy)
    (by norm_num)
    (by decide)
    (Or.inl (by norm_num))
    (by simp [tamperFS])

end Binsign
